import Mathlib

/-!
Shallow embedding of `src/tar_data_collection.py` (CLEF eHealth 2017 TAR data
collection script) and verification of its specification.

The script is sequential I/O glue; the logic the specification talks about —
chunking, the date filter and index sort of `extract_pid`, deduplication and
qrel-line assembly in `make_release_file`, the curated-label mapping of
`read_clef_rel`, and the TRECTEXT formatter — is embedded here as pure
functions over parsed inputs (XML records, CSV rows, file lines), with file
and console output modelled as the returned values.
-/

/-! ## Dates

`datetime.datetime.strptime(s, "%Y%m%d")` (lines 412-413 and 435) produces a
`datetime` object; the script only ever compares these, and `datetime`
comparison is lexicographic on (year, month, day). -/

/-- A parsed `%Y%m%d` date, as used by `extract_pid`. -/
structure PyDate where
  year : Nat
  month : Nat
  day : Nat
deriving DecidableEq, Repr

/-- Python `datetime` strict comparison `a < b`: lexicographic on
(year, month, day). -/
def pyDateLt (a b : PyDate) : Bool :=
  decide (a.year < b.year) ||
    (a.year == b.year &&
      (decide (a.month < b.month) ||
        (a.month == b.month && decide (a.day < b.day))))

/-! ## `chunks_by_element` (lines 85-95)

`[arr[i:i+n] for i in range(0, len(arr), n)]`: `range(0, L, n)` (for `n > 0`)
enumerates the `⌈L/n⌉ = (L + n - 1) / n` indices `0, n, 2n, …`, and the slice
`arr[i:i+n]` is `(arr.drop i).take n`. -/

def chunks_by_element (arr : List α) (n : Nat) : List (List α) :=
  (List.range ((arr.length + n - 1) / n)).map fun k => (arr.drop (k * n)).take n

/-! ## `extract_pid` (lines 393-450)

For one topic: every downloaded XML batch file contributes a list of `record`
elements; each record carries the numeric part of its `index` attribute
(lines 426-427), the `Unique Identifier` field text (lines 430-431) and the
parsed `Date Created` field (lines 433-435).  Records passing the date test of
line 438 are collected as `(index, ui)` pairs across all batches, sorted by
index (line 444, Python's stable `list.sort(key=itemgetter(0))`, modelled by
the stable `List.insertionSort` with `≤` on the first component), and the
identifiers are written out in that order (lines 447-449). -/

/-- One parsed `record` element of a downloaded OVID XML batch. -/
structure OvidRecord where
  inx : Nat
  ui : String
  dateCreated : PyDate
deriving DecidableEq, Repr

/-- Line 438: `if test_date < end_date and test_date > start_date`. -/
def keepRecord (startDate endDate : PyDate) (r : OvidRecord) : Bool :=
  pyDateLt r.dateCreated endDate && pyDateLt startDate r.dateCreated

/-- Lines 405-441: the `(inx, ui)` pairs surviving the date filter, in batch
order (`list_ret` just before the sort of line 444). -/
def survivingPairs (startDate endDate : PyDate) (batches : List (List OvidRecord)) :
    List (Nat × String) :=
  batches.flatten.filterMap fun r =>
    if keepRecord startDate endDate r then some (r.inx, r.ui) else none

/-- Line 444: `list_ret.sort(key=itemgetter(0))` — a stable ascending sort on
the index component. -/
def sortedPairs (startDate endDate : PyDate) (batches : List (List OvidRecord)) :
    List (Nat × String) :=
  (survivingPairs startDate endDate batches).insertionSort fun a b => a.1 ≤ b.1

/-- Lines 393-450: the identifier list written to the topic's pids file, one
identifier per line. -/
def extract_pid (startDate endDate : PyDate) (batches : List (List OvidRecord)) :
    List String :=
  (sortedPairs startDate endDate batches).map Prod.snd

section SortInstances

instance : IsTotal (Nat × String) (fun a b => a.1 ≤ b.1) :=
  ⟨fun a b => Nat.le_total a.1 b.1⟩

instance : IsTrans (Nat × String) (fun a b => a.1 ≤ b.1) :=
  ⟨fun _ _ _ h h' => Nat.le_trans h h'⟩

end SortInstances

/-! ## Deduplication (lines 526-532, repeated at lines 574-580)

```
list_boolean = []
local = []
for l in fr:
    if l.strip() not in local:
        list_boolean.append(l.strip())
        local.append(l.strip())
```

The two lists always hold the same contents; the loop keeps the first
occurrence of each line.  Lines are modelled post-`strip()`. -/

/-- The dedup loop of `make_release_file`/`download_abstract`, with the
`(list_boolean, local)` pair of the source carried explicitly. -/
def dedup_pids (lines : List String) : List String :=
  (lines.foldl
    (fun st l => if l ∈ st.2 then st else (st.1 ++ [l], st.2 ++ [l]))
    ([], [])).1

/-- Modelled from the spec: "Deduplicates the topic's identifier list (first
occurrence wins, order preserved)" — keep the head, then deduplicate the tail
with all later copies of the head removed. -/
def dedup_spec : List String → List String
  | [] => []
  | x :: xs => x :: dedup_spec (xs.filter fun y => decide (y ≠ x))
termination_by ls => ls.length
decreasing_by
  simp only [List.length_cons]
  exact Nat.lt_succ_of_le (List.length_filter_le _ _)

/-! ## `read_clef_rel` (lines 204-236)

Each CSV row carries the `CD\d+` code extracted from its `review_doi` column
(line 214), its stripped `pubmed_id` (line 215), and its free-text `ref_type`
label.  Depending on `qrel_type` the label maps to a relevance flag or the row
is skipped (`continue`); an unknown `qrel_type` stops the loop (`break`),
which yields the same (empty) table as skipping every row. -/

/-- One row of `relevance_index.csv`, after the `CD\d+` extraction and
stripping that lines 214-215 perform. -/
structure RelRow where
  review_doi : String
  pubmed_id : String
  ref_type : String
deriving DecidableEq, Repr

/-- Lines 217-234: the flag a row's `ref_type` label maps to, `none` when the
row is skipped. -/
def ref_flag (qrel_type lbl : String) : Option Nat :=
  if qrel_type = "abs" then
    if lbl = "included" then some 1
    else if lbl = "excluded" then some 1
    else none
  else if qrel_type = "doc" then
    if lbl = "included" then some 1
    else if lbl = "excluded" then some 0
    else none
  else none

/-- Lines 204-236: the `(review_doi, pubmed_id, flag)` entries assigned into
`dict_rel`, in row order. -/
def read_clef_rel (qrel_type : String) (rows : List RelRow) :
    List (String × String × Nat) :=
  rows.filterMap fun row =>
    (ref_flag qrel_type row.ref_type).map fun f => (row.review_doi, row.pubmed_id, f)

/-- `dict_rel[review_doi].get(pubmed_id, default)` without the default: the
nested-dict lookup, where a later assignment to the same key pair overwrites
an earlier one. -/
def rel_lookup (table : List (String × String × Nat)) (review pid : String) :
    Option Nat :=
  (table.reverse.find? fun e => e.1 == review && e.2.1 == pid).map fun e => e.2.2

/-! ## `make_release_file` (lines 506-561)

For each topic file in the pids directory: assert the topic id is a key of
the spreadsheet dict (lines 521-523), deduplicate the topic's pid lines
(lines 526-532), and in the qrel modes write one line
`(review_doi, 0, pid, dict_rel[review_doi].get(pid, 0))` per surviving pid
(lines 539-549). -/

/-- One line of an `abs`/`doc` qrel file (lines 542-543 / 548-549). -/
structure QrelLine where
  review : String
  iteration : Nat
  doc : String
  rel : Nat
deriving DecidableEq, Repr

/-- Lines 526-549: the qrel lines written for one topic. -/
def qrel_file (review_doi : String) (table : List (String × String × Nat))
    (pid_lines : List String) : List QrelLine :=
  (dedup_pids pid_lines).map fun item =>
    ⟨review_doi, 0, item, (rel_lookup table review_doi item).getD 0⟩

/-- Lines 521-549 over the whole pids directory: topics are processed in
order; the first topic id missing from the spreadsheet dict fires the
assertion of line 523 and aborts the run.  `dict_review` maps topic id to
`review_doi`. -/
def make_release_file (table : List (String × String × Nat))
    (dict_review : List (String × String)) :
    List (String × List String) → Except String (List (String × List QrelLine))
  | [] => .ok []
  | (tid, lines) :: rest =>
    match dict_review.find? (fun p => p.1 == tid) with
    | none => .error ("topic " ++ tid ++ " not in medline_ovid_search.xlsx")
    | some p =>
      match make_release_file table dict_review rest with
      | .error e => .error e
      | .ok out => .ok ((tid, qrel_file p.2 table lines) :: out)

/-! ## `trec_format_abstract` (lines 602-647)

Each `PubmedArticle` element yields its `PMID` text, `ArticleTitle` text and
the `data` of the text nodes under every `AbstractText` element (lines
625-637).  `getElementsByTagName('AbstractText')` returns an empty list — it
does not raise — when the article has no abstract, so the collection loop
runs zero times, the join yields the empty string, and the `except` branch
with its console print (line 639) is never reached; the model therefore
returns an empty list of console messages alongside the records. -/

/-- One parsed `PubmedArticle` citation of a raw NCBI response file. -/
structure PubmedCitation where
  pid : String
  title : String
  abstractTexts : List String
deriving DecidableEq, Repr

/-- One TRECTEXT record as written by lines 642-646. -/
structure TrecRecord where
  docno : String
  title : String
  text : String
deriving DecidableEq, Repr

/-- Lines 631-637: the newline-joined abstract text. -/
def citation_abstract (c : PubmedCitation) : String :=
  String.intercalate "\n" c.abstractTexts

/-- Lines 625-646 for one response file: the emitted records paired with the
console messages printed while formatting (none are ever printed, since no
statement in the `try` block raises on a missing abstract). -/
def trec_format_abstract (citations : List PubmedCitation) :
    List TrecRecord × List String :=
  (citations.map fun c => ⟨c.pid, c.title, citation_abstract c⟩, [])

/-! ## Lemmas about `chunks_by_element` -/

theorem chunks_by_element_nil (n : Nat) : chunks_by_element ([] : List α) n = [] := by
  have h : (n - 1) / n = 0 := by
    rcases Nat.eq_zero_or_pos n with h | h
    · simp [h]
    · exact Nat.div_eq_of_lt (Nat.sub_lt h Nat.one_pos)
  simp [chunks_by_element, h]

theorem chunks_count_step {L n : Nat} (hn : 0 < n) (hL : 0 < L) :
    (L + n - 1) / n = (L - n + n - 1) / n + 1 := by
  rcases Nat.le_total n L with h | h
  · have h2 : L - n + n - 1 + n = L + n - 1 := by omega
    rw [← h2, Nat.add_div_right _ hn]
  · have h1 : L - n = 0 := Nat.sub_eq_zero_of_le h
    have h2 : (L + n - 1) / n = 1 := by
      apply Nat.div_eq_of_lt_le <;> omega
    have h3 : (0 + n - 1) / n = 0 := Nat.div_eq_of_lt (by omega)
    rw [h1, h2, h3]

theorem chunks_by_element_cons {n : Nat} (hn : 0 < n) (arr : List α) (h : arr ≠ []) :
    chunks_by_element arr n = arr.take n :: chunks_by_element (arr.drop n) n := by
  have hL : 0 < arr.length := List.length_pos.mpr h
  unfold chunks_by_element
  rw [List.length_drop, chunks_count_step hn hL, List.range_succ_eq_map,
    List.map_cons, List.map_map]
  congr 1
  · simp
  · apply List.map_congr_left
    intro k _
    simp only [Function.comp_apply]
    rw [List.drop_drop, Nat.succ_mul]
    congr 2
    omega

theorem chunks_by_element_flatten {n : Nat} (hn : 0 < n) :
    ∀ arr : List α, (chunks_by_element arr n).flatten = arr
  | [] => by rw [chunks_by_element_nil]; rfl
  | a :: arr => by
    rw [chunks_by_element_cons hn (a :: arr) (by simp), List.flatten_cons,
      chunks_by_element_flatten hn ((a :: arr).drop n)]
    exact List.take_append_drop n (a :: arr)
termination_by arr => arr.length
decreasing_by
  simp only [List.length_drop, List.length_cons]
  omega

theorem mem_chunks_by_element {n : Nat} {arr c : List α}
    (hc : c ∈ chunks_by_element arr n) :
    ∃ k, k + 1 ≤ (arr.length + n - 1) / n ∧ c = (arr.drop (k * n)).take n := by
  simp only [chunks_by_element, List.mem_map, List.mem_range] at hc
  obtain ⟨k, hk, rfl⟩ := hc
  exact ⟨k, hk, rfl⟩

theorem chunks_by_element_length_le {n : Nat} {arr c : List α}
    (hc : c ∈ chunks_by_element arr n) : c.length ≤ n := by
  obtain ⟨k, _, rfl⟩ := mem_chunks_by_element hc
  simp [List.length_take]

theorem chunks_by_element_ne_nil {n : Nat} (hn : 0 < n) {arr c : List α}
    (hc : c ∈ chunks_by_element arr n) : c ≠ [] := by
  obtain ⟨k, hk, rfl⟩ := mem_chunks_by_element hc
  have hmul : (k + 1) * n ≤ arr.length + n - 1 :=
    (Nat.le_div_iff_mul_le hn).mp hk
  have hmul2 : k * n + 1 * n ≤ arr.length + n - 1 := by
    rw [← Nat.add_mul]; exact hmul
  have hlt : k * n < arr.length := by omega
  have : 0 < ((arr.drop (k * n)).take n).length := by
    simp only [List.length_take, List.length_drop]
    omega
  exact List.ne_nil_of_length_pos this

theorem chunks_by_element_dropLast {n : Nat} (hn : 0 < n) (arr : List α) :
    ∀ c ∈ (chunks_by_element arr n).dropLast, c.length = n := by
  intro c hc
  rw [chunks_by_element, ← List.map_dropLast] at hc
  rcases hm : (arr.length + n - 1) / n with _ | m
  · rw [hm] at hc; simp at hc
  · rw [hm, List.range_succ, List.dropLast_concat] at hc
    simp only [List.mem_map, List.mem_range] at hc
    obtain ⟨k, hk, rfl⟩ := hc
    have hk2 : k + 2 ≤ (arr.length + n - 1) / n := by omega
    have hmul : (k + 2) * n ≤ arr.length + n - 1 :=
      (Nat.le_div_iff_mul_le hn).mp hk2
    have hmul2 : k * n + 2 * n ≤ arr.length + n - 1 := by
      rw [← Nat.add_mul]; exact hmul
    simp only [List.length_take, List.length_drop]
    omega

/-! ## Lemmas about deduplication -/

theorem dedup_spec_cons (x : String) (xs : List String) :
    dedup_spec (x :: xs) = x :: dedup_spec (xs.filter fun y => decide (y ≠ x)) := by
  rw [dedup_spec]

theorem mem_dedup_spec : ∀ (ls : List String) (a : String), a ∈ dedup_spec ls ↔ a ∈ ls
  | [], a => by rw [dedup_spec]
  | x :: xs, a => by
    rw [dedup_spec_cons]
    by_cases hax : a = x
    · simp [hax]
    · simp only [List.mem_cons, hax, false_or]
      rw [mem_dedup_spec (xs.filter fun y => decide (y ≠ x)) a]
      simp [List.mem_filter, hax]
termination_by ls _ => ls.length
decreasing_by
  simp only [List.length_cons]
  exact Nat.lt_succ_of_le (List.length_filter_le _ _)

theorem dedup_spec_nodup : ∀ ls : List String, (dedup_spec ls).Nodup
  | [] => by rw [dedup_spec]; exact List.nodup_nil
  | x :: xs => by
    rw [dedup_spec_cons]
    refine List.nodup_cons.mpr ⟨fun hmem => ?_, dedup_spec_nodup _⟩
    rw [mem_dedup_spec] at hmem
    have := List.of_mem_filter hmem
    simp at this
termination_by ls => ls.length
decreasing_by
  simp only [List.length_cons]
  exact Nat.lt_succ_of_le (List.length_filter_le _ _)

theorem dedup_spec_sublist : ∀ ls : List String, List.Sublist (dedup_spec ls) ls
  | [] => by rw [dedup_spec]
  | x :: xs => by
    rw [dedup_spec_cons]
    exact List.cons_sublist_cons.mpr
      ((dedup_spec_sublist _).trans (List.filter_sublist _))
termination_by ls => ls.length
decreasing_by
  simp only [List.length_cons]
  exact Nat.lt_succ_of_le (List.length_filter_le _ _)

theorem dedup_loop_eq : ∀ (lines acc : List String),
    (lines.foldl (fun st l => if l ∈ st.2 then st else (st.1 ++ [l], st.2 ++ [l]))
        (acc, acc)).1
      = acc ++ dedup_spec (lines.filter fun y => decide (y ∉ acc))
  | [], acc => by rw [dedup_spec.eq_def]; simp
  | x :: xs, acc => by
    simp only [List.foldl_cons, List.filter_cons]
    by_cases hx : x ∈ acc
    · rw [if_pos hx, if_neg (by simp [hx] : ¬(decide (x ∉ acc) = true))]
      exact dedup_loop_eq xs acc
    · rw [if_neg hx, if_pos (by simp [hx] : decide (x ∉ acc) = true)]
      rw [dedup_loop_eq xs (acc ++ [x]), dedup_spec_cons]
      have hfe : (xs.filter fun y => decide (y ∉ acc ++ [x]))
          = (xs.filter fun y => decide (y ∉ acc)).filter fun y => decide (y ≠ x) := by
        rw [List.filter_filter]
        apply List.filter_congr
        intro y _
        by_cases h1 : y = x
        · simp [h1]
        · by_cases h2 : y ∈ acc <;> simp [h1, h2]
      rw [hfe, List.append_assoc, List.singleton_append]

theorem dedup_pids_eq_spec (lines : List String) : dedup_pids lines = dedup_spec lines := by
  have h := dedup_loop_eq lines []
  have hf : (lines.filter fun y => decide (y ∉ ([] : List String))) = lines := by
    apply List.filter_eq_self.mpr
    simp
  rw [hf, List.nil_append] at h
  exact h

theorem dedup_pids_nodup (ls : List String) : (dedup_pids ls).Nodup := by
  rw [dedup_pids_eq_spec]; exact dedup_spec_nodup ls

theorem dedup_pids_sublist (ls : List String) : List.Sublist (dedup_pids ls) ls := by
  rw [dedup_pids_eq_spec]; exact dedup_spec_sublist ls

theorem mem_dedup_pids (ls : List String) (a : String) :
    a ∈ dedup_pids ls ↔ a ∈ ls := by
  rw [dedup_pids_eq_spec]; exact mem_dedup_spec ls a

theorem dedup_pids_length (ls : List String) :
    (dedup_pids ls).length = ls.toFinset.card := by
  have h1 : (dedup_pids ls).toFinset = ls.toFinset := by
    ext a
    simp [List.mem_toFinset, mem_dedup_pids]
  rw [← h1, List.toFinset_card_of_nodup (dedup_pids_nodup ls)]

/-! ## Lemmas about the relevance table -/

theorem ref_flag_zero_or_one {qt lbl : String} {f : Nat}
    (h : ref_flag qt lbl = some f) : f = 0 ∨ f = 1 := by
  unfold ref_flag at h
  split_ifs at h <;> cases h <;> simp

theorem ref_flag_abs_one {lbl : String} {f : Nat}
    (h : ref_flag "abs" lbl = some f) : f = 1 := by
  unfold ref_flag at h
  split_ifs at h <;> cases h <;> simp_all

theorem rel_lookup_mem {qt : String} {rows : List RelRow} {review pid : String} {f : Nat}
    (h : rel_lookup (read_clef_rel qt rows) review pid = some f) :
    ∃ row ∈ rows, ref_flag qt row.ref_type = some f := by
  unfold rel_lookup at h
  rw [Option.map_eq_some'] at h
  obtain ⟨e, he, hf⟩ := h
  have hmem : e ∈ (read_clef_rel qt rows).reverse := List.mem_of_find?_eq_some he
  rw [List.mem_reverse] at hmem
  unfold read_clef_rel at hmem
  rw [List.mem_filterMap] at hmem
  obtain ⟨row, hrow, hmap⟩ := hmem
  rw [Option.map_eq_some'] at hmap
  obtain ⟨f', hf', he'⟩ := hmap
  refine ⟨row, hrow, ?_⟩
  rw [hf']
  rw [← he'] at hf
  simp only at hf
  rw [hf]

theorem rel_lookup_zero_or_one {qt : String} {rows : List RelRow} {review pid : String}
    {f : Nat} (h : rel_lookup (read_clef_rel qt rows) review pid = some f) :
    f = 0 ∨ f = 1 := by
  obtain ⟨row, _, hrow⟩ := rel_lookup_mem h
  exact ref_flag_zero_or_one hrow

theorem rel_lookup_abs_one {rows : List RelRow} {review pid : String} {f : Nat}
    (h : rel_lookup (read_clef_rel "abs" rows) review pid = some f) : f = 1 := by
  obtain ⟨row, _, hrow⟩ := rel_lookup_mem h
  exact ref_flag_abs_one hrow

/-! ## Lemmas about `extract_pid` -/

theorem sortedPairs_sorted (s e : PyDate) (b : List (List OvidRecord)) :
    List.Sorted (fun a b => a.1 ≤ b.1) (sortedPairs s e b) :=
  List.sorted_insertionSort _ _

theorem sortedPairs_perm (s e : PyDate) (b : List (List OvidRecord)) :
    (sortedPairs s e b).Perm (survivingPairs s e b) :=
  List.perm_insertionSort _ _

theorem mem_survivingPairs {s e : PyDate} {b : List (List OvidRecord)}
    {p : Nat × String} (hp : p ∈ survivingPairs s e b) :
    ∃ r ∈ b.flatten, keepRecord s e r = true ∧ p = (r.inx, r.ui) := by
  unfold survivingPairs at hp
  rw [List.mem_filterMap] at hp
  obtain ⟨r, hr, hif⟩ := hp
  refine ⟨r, hr, ?_⟩
  by_cases hk : keepRecord s e r = true
  · rw [if_pos hk] at hif
    cases hif
    exact ⟨hk, rfl⟩
  · rw [if_neg hk] at hif
    cases hif

/-! ## Claim theorems -/

/-- C1: the PID Extractor's date filter is strictly exclusive at both
boundaries: a record passes the test of line 438 iff its creation date is
strictly greater than the start date and strictly less than the end date; a
record whose date equals either boundary is rejected, and `extract_pid` keeps
exactly the records passing the test. -/
theorem date_filter_strict_exclusive (s e : PyDate) (r : OvidRecord) :
    (keepRecord s e r = true ↔
      (pyDateLt s r.dateCreated = true ∧ pyDateLt r.dateCreated e = true))
    ∧ (r.dateCreated = s → keepRecord s e r = false)
    ∧ (r.dateCreated = e → keepRecord s e r = false)
    ∧ extract_pid s e [[r]] = (if keepRecord s e r then [r.ui] else []) := by
  have hirr : ∀ d : PyDate, pyDateLt d d = false := by
    intro d
    simp [pyDateLt]
  refine ⟨?_, ?_, ?_, ?_⟩
  · simp [keepRecord, Bool.and_eq_true, and_comm]
  · intro hd
    simp [keepRecord, hd, hirr]
  · intro hd
    simp [keepRecord, hd, hirr]
  · by_cases hk : keepRecord s e r = true <;>
      simp [extract_pid, sortedPairs, survivingPairs, hk]

/-- Witness for C1 at the spec's example boundaries. -/
theorem date_filter_strict_exclusive_witness :
    keepRecord ⟨2017, 1, 1⟩ ⟨2017, 12, 31⟩ ⟨7, "100", ⟨2017, 1, 1⟩⟩ = false
    ∧ keepRecord ⟨2017, 1, 1⟩ ⟨2017, 12, 31⟩ ⟨7, "100", ⟨2017, 12, 31⟩⟩ = false :=
  ⟨(date_filter_strict_exclusive ⟨2017, 1, 1⟩ ⟨2017, 12, 31⟩ ⟨7, "100", ⟨2017, 1, 1⟩⟩).2.1 rfl,
   (date_filter_strict_exclusive ⟨2017, 1, 1⟩ ⟨2017, 12, 31⟩ ⟨7, "100", ⟨2017, 12, 31⟩⟩).2.2.1 rfl⟩

/-- C2: deduplication is asymmetric between the stages: the Extractor passes
duplicates through (a concrete pair of batches with the same identifier
yields it twice in the pids file), while the Release Builder's dedup loop
produces a duplicate-free list that keeps the first occurrence of each
identifier (`dedup_spec`) and preserves the original order (sublist). -/
theorem dedup_asymmetry :
    (extract_pid ⟨2017, 1, 1⟩ ⟨2018, 1, 1⟩
        [[⟨1, "B", ⟨2017, 6, 1⟩⟩], [⟨2, "B", ⟨2017, 7, 1⟩⟩]] = ["B", "B"]
      ∧ ¬ (extract_pid ⟨2017, 1, 1⟩ ⟨2018, 1, 1⟩
          [[⟨1, "B", ⟨2017, 6, 1⟩⟩], [⟨2, "B", ⟨2017, 7, 1⟩⟩]]).Nodup)
    ∧ ∀ ls : List String,
        (dedup_pids ls).Nodup
        ∧ dedup_pids ls = dedup_spec ls
        ∧ List.Sublist (dedup_pids ls) ls := by
  refine ⟨⟨?_, ?_⟩,
    fun ls => ⟨dedup_pids_nodup ls, dedup_pids_eq_spec ls, dedup_pids_sublist ls⟩⟩
  · decide
  · decide

/-- C3 counterexample: `extract_pid` performs no deduplication, so the
identifier-list file it writes can contain the same identifier twice. -/
theorem pids_file_duplicates_counterexample :
    extract_pid ⟨2017, 1, 1⟩ ⟨2018, 1, 1⟩
      [[⟨1, "A", ⟨2017, 6, 1⟩⟩], [⟨2, "A", ⟨2017, 7, 1⟩⟩]] = ["A", "A"]
    ∧ ¬ (extract_pid ⟨2017, 1, 1⟩ ⟨2018, 1, 1⟩
        [[⟨1, "A", ⟨2017, 6, 1⟩⟩], [⟨2, "A", ⟨2017, 7, 1⟩⟩]]).Nodup := by
  constructor <;> decide

/-- C3 (amended): every identifier in the list written by `extract_pid` comes
from a downloaded record whose creation date lies strictly inside the topic's
date window; the list may however contain duplicates, deduplication happening
only in the Release Builder. -/
theorem pids_file_within_window (s e : PyDate) (b : List (List OvidRecord))
    (u : String) (hu : u ∈ extract_pid s e b) :
    ∃ r, r ∈ b.flatten ∧ r.ui = u
      ∧ pyDateLt s r.dateCreated = true ∧ pyDateLt r.dateCreated e = true := by
  unfold extract_pid at hu
  rw [List.mem_map] at hu
  obtain ⟨p, hp, rfl⟩ := hu
  have hp2 : p ∈ survivingPairs s e b := (sortedPairs_perm s e b).mem_iff.mp hp
  obtain ⟨r, hr, hk, heq⟩ := mem_survivingPairs hp2
  subst heq
  unfold keepRecord at hk
  rw [Bool.and_eq_true] at hk
  exact ⟨r, hr, rfl, hk.2, hk.1⟩

/-- Witness for C3's amended theorem at a concrete batch. -/
theorem pids_file_within_window_witness :
    ∃ r, r ∈ ([[⟨1, "A", ⟨2017, 6, 1⟩⟩]] : List (List OvidRecord)).flatten ∧ r.ui = "A"
      ∧ pyDateLt ⟨2017, 1, 1⟩ r.dateCreated = true
      ∧ pyDateLt r.dateCreated ⟨2018, 1, 1⟩ = true :=
  pids_file_within_window ⟨2017, 1, 1⟩ ⟨2018, 1, 1⟩ [[⟨1, "A", ⟨2017, 6, 1⟩⟩]] "A" (by decide)

/-- C4: the curated-label mapping of `read_clef_rel`: for the abstract kind
both "included" and "excluded" map to flag 1; for the document kind
"included" maps to 1 and "excluded" to 0; any other label yields no entry;
hence the same "excluded" row gives a table entry of 1 for "abs" and 0 for
"doc" under the same identifier. -/
theorem clef_rel_label_mapping :
    ref_flag "abs" "included" = some 1
    ∧ ref_flag "abs" "excluded" = some 1
    ∧ ref_flag "doc" "included" = some 1
    ∧ ref_flag "doc" "excluded" = some 0
    ∧ (∀ lbl : String, lbl ≠ "included" → lbl ≠ "excluded" →
        ref_flag "abs" lbl = none ∧ ref_flag "doc" lbl = none)
    ∧ ∀ row : RelRow, row.ref_type = "excluded" →
        rel_lookup (read_clef_rel "abs" [row]) row.review_doi row.pubmed_id = some 1
        ∧ rel_lookup (read_clef_rel "doc" [row]) row.review_doi row.pubmed_id = some 0 := by
  refine ⟨rfl, rfl, rfl, rfl, ?_, ?_⟩
  · intro lbl h1 h2
    constructor <;> simp [ref_flag, h1, h2]
  · intro row hrow
    constructor <;> simp [read_clef_rel, rel_lookup, ref_flag, hrow]

/-- Witness for C4 at a concrete label and row. -/
theorem clef_rel_label_mapping_witness :
    (ref_flag "abs" "maybe" = none ∧ ref_flag "doc" "maybe" = none)
    ∧ rel_lookup (read_clef_rel "abs" [⟨"CD1", "p1", "excluded"⟩]) "CD1" "p1" = some 1
    ∧ rel_lookup (read_clef_rel "doc" [⟨"CD1", "p1", "excluded"⟩]) "CD1" "p1" = some 0 :=
  ⟨clef_rel_label_mapping.2.2.2.2.1 "maybe" (by decide) (by decide),
   (clef_rel_label_mapping.2.2.2.2.2 ⟨"CD1", "p1", "excluded"⟩ rfl).1,
   (clef_rel_label_mapping.2.2.2.2.2 ⟨"CD1", "p1", "excluded"⟩ rfl).2⟩

/-- C5 counterexample: in a document-level judgment file a curated "excluded"
row produces relevance flag 0 although the (review id, document id) pair does
have an entry in the loaded table — so "flag 0 exactly when no entry" fails. -/
theorem qrel_flag_zero_iff_counterexample :
    qrel_file "CD1" (read_clef_rel "doc" [⟨"CD1", "p", "excluded"⟩]) ["p"]
      = [⟨"CD1", 0, "p", 0⟩]
    ∧ rel_lookup (read_clef_rel "doc" [⟨"CD1", "p", "excluded"⟩]) "CD1" "p" = some 0
    ∧ rel_lookup (read_clef_rel "doc" [⟨"CD1", "p", "excluded"⟩]) "CD1" "p" ≠ none := by
  refine ⟨?_, ?_, ?_⟩ <;> decide

/-- C5 (amended): every judgment file has one line per distinct identifier of
the topic's identifier list, every relevance flag is 0 or 1, and the flag is 0
whenever the (review id, document id) pair has no entry in the curated table
(for abstract-level files: exactly when it has no entry). -/
theorem qrel_file_line_properties (qt doi : String) (rows : List RelRow)
    (lines : List String) (hqt : qt = "abs" ∨ qt = "doc") :
    (qrel_file doi (read_clef_rel qt rows) lines).length = lines.toFinset.card
    ∧ (∀ e ∈ qrel_file doi (read_clef_rel qt rows) lines,
        (e.rel = 0 ∨ e.rel = 1)
        ∧ (rel_lookup (read_clef_rel qt rows) doi e.doc = none → e.rel = 0))
    ∧ (qt = "abs" → ∀ e ∈ qrel_file doi (read_clef_rel qt rows) lines,
        (e.rel = 0 ↔ rel_lookup (read_clef_rel qt rows) doi e.doc = none)) := by
  refine ⟨?_, ?_, ?_⟩
  · unfold qrel_file
    rw [List.length_map, dedup_pids_length]
  · intro e he
    unfold qrel_file at he
    rw [List.mem_map] at he
    obtain ⟨item, _, rfl⟩ := he
    constructor
    · rcases hl : rel_lookup (read_clef_rel qt rows) doi item with _ | f
      · simp [hl]
      · have := rel_lookup_zero_or_one hl
        simpa [hl] using this
    · intro hnone
      simp only at hnone
      simp [hnone]
  · intro habs e he
    subst habs
    unfold qrel_file at he
    rw [List.mem_map] at he
    obtain ⟨item, _, rfl⟩ := he
    rcases hl : rel_lookup (read_clef_rel "abs" rows) doi item with _ | f
    · simp [hl]
    · have hf := rel_lookup_abs_one hl
      simp [hl, hf]

/-- Witness for C5's amended theorem at a concrete table and pid list. -/
theorem qrel_file_line_properties_witness :
    (qrel_file "CD1" (read_clef_rel "abs" [⟨"CD1", "p", "included"⟩])
        ["p", "q", "p"]).length
      = (["p", "q", "p"] : List String).toFinset.card :=
  (qrel_file_line_properties "abs" "CD1" [⟨"CD1", "p", "included"⟩] ["p", "q", "p"]
    (Or.inl rfl)).1

/-- C6: chunking by element count with chunk size 500 splits any 1000-item
sequence into exactly two chunks of 500 and any 501-item sequence into two
chunks of sizes 500 and 1. -/
theorem chunks_1000_and_501 :
    (∀ arr : List String, arr.length = 1000 →
      (chunks_by_element arr 500).map List.length = [500, 500])
    ∧ ∀ arr : List String, arr.length = 501 →
      (chunks_by_element arr 500).map List.length = [500, 1] := by
  constructor
  · intro arr h
    simp only [chunks_by_element, h]
    norm_num
    rw [show List.range 2 = [0, 1] from rfl]
    simp [List.length_take, List.length_drop, h]
  · intro arr h
    simp only [chunks_by_element, h]
    norm_num
    rw [show List.range 2 = [0, 1] from rfl]
    simp [List.length_take, List.length_drop, h]

/-- Witness for C6 at concrete 1000- and 501-item lists. -/
theorem chunks_1000_and_501_witness :
    (chunks_by_element (List.replicate 1000 "x") 500).map List.length = [500, 500]
    ∧ (chunks_by_element (List.replicate 501 "x") 500).map List.length = [500, 1] :=
  ⟨chunks_1000_and_501.1 (List.replicate 1000 "x") (by rw [List.length_replicate]),
   chunks_1000_and_501.2 (List.replicate 501 "x") (by rw [List.length_replicate])⟩

/-- C7: `extract_pid` is deterministic over its parsed inputs, and its output
order is the ascending stable sort of the surviving records by their declared
index: the sorted pair list is sorted on the index component, is a
permutation of the surviving records, and the written identifiers are its
second components in order. -/
theorem extract_pid_deterministic_sorted (s e : PyDate)
    (b1 b2 : List (List OvidRecord)) (h : b1 = b2) :
    extract_pid s e b1 = extract_pid s e b2
    ∧ List.Sorted (fun a b => a.1 ≤ b.1) (sortedPairs s e b1)
    ∧ (sortedPairs s e b1).Perm (survivingPairs s e b1)
    ∧ extract_pid s e b1 = (sortedPairs s e b1).map Prod.snd :=
  ⟨by rw [h], sortedPairs_sorted s e b1, sortedPairs_perm s e b1, rfl⟩

/-- Witness for C7 at a concrete pair of identical batch lists. -/
theorem extract_pid_deterministic_sorted_witness :
    List.Sorted (fun a b => a.1 ≤ b.1)
      (sortedPairs ⟨2017, 1, 1⟩ ⟨2018, 1, 1⟩
        [[⟨2, "9", ⟨2017, 3, 1⟩⟩, ⟨1, "7", ⟨2017, 2, 1⟩⟩]]) :=
  (extract_pid_deterministic_sorted ⟨2017, 1, 1⟩ ⟨2018, 1, 1⟩
    [[⟨2, "9", ⟨2017, 3, 1⟩⟩, ⟨1, "7", ⟨2017, 2, 1⟩⟩]]
    [[⟨2, "9", ⟨2017, 3, 1⟩⟩, ⟨1, "7", ⟨2017, 2, 1⟩⟩]] rfl).2.1

/-- C8: `make_release_file` fails with the assertion error iff some topic id
among the identifier-list files has no matching entry in the spreadsheet
dict; when every topic id has an entry the assertion never fires. -/
theorem release_assertion_iff (table : List (String × String × Nat))
    (dict_review : List (String × String)) (files : List (String × List String)) :
    (∃ msg, make_release_file table dict_review files = Except.error msg)
      ↔ ∃ tf ∈ files, ¬ ∃ p ∈ dict_review, p.1 = tf.1 := by
  induction files with
  | nil =>
    constructor
    · rintro ⟨msg, hmsg⟩
      rw [make_release_file] at hmsg
      cases hmsg
    · rintro ⟨tf, htf, _⟩
      cases htf
  | cons tf rest ih =>
    obtain ⟨tid, lines⟩ := tf
    cases hfind : dict_review.find? (fun p => p.1 == tid) with
    | none =>
      constructor
      · intro _
        refine ⟨(tid, lines), List.mem_cons_self _ _, ?_⟩
        rintro ⟨p, hp, hpeq⟩
        have hne := List.find?_eq_none.mp hfind p hp
        simp only [beq_iff_eq] at hne
        exact hne hpeq
      · intro _
        exact ⟨"topic " ++ tid ++ " not in medline_ovid_search.xlsx",
          by rw [make_release_file, hfind]⟩
    | some p =>
      have hp_mem : p ∈ dict_review := List.mem_of_find?_eq_some hfind
      have hp_eq : p.1 = tid := by
        have := List.find?_some hfind
        simpa using this
      cases hrest : make_release_file table dict_review rest with
      | error e =>
        constructor
        · intro _
          obtain ⟨tf', htf', hmiss⟩ := ih.mp ⟨e, hrest⟩
          exact ⟨tf', List.mem_cons_of_mem _ htf', hmiss⟩
        · intro _
          exact ⟨e, by rw [make_release_file, hfind, hrest]⟩
      | ok out =>
        constructor
        · rintro ⟨msg, hmsg⟩
          rw [make_release_file, hfind, hrest] at hmsg
          cases hmsg
        · rintro ⟨tf', htf', hmiss⟩
          rcases List.mem_cons.mp htf' with heq | hmem
          · subst heq
            exact absurd ⟨p, hp_mem, hp_eq⟩ hmiss
          · obtain ⟨msg, hmsg⟩ := ih.mpr ⟨tf', hmem, hmiss⟩
            rw [hmsg] at hrest
            cases hrest

/-- Witness for C8: a pids-directory topic with an empty spreadsheet dict
makes the builder fail. -/
theorem release_assertion_iff_witness :
    ∃ msg, make_release_file [] [] [("42", ["p"])] = Except.error msg :=
  (release_assertion_iff [] [] [("42", ["p"])]).mpr
    ⟨("42", ["p"]), by simp, by rintro ⟨p, hp, _⟩; cases hp⟩

/-- C9 (the code at the failing input): a citation with no `AbstractText`
element yields its record with an empty text field but no console message —
the logging branch of line 639 is unreachable, since
`getElementsByTagName` returns an empty list instead of raising — while in
general the text field is the newline-joined concatenation of all abstract
text nodes. -/
theorem trec_missing_abstract_eval :
    trec_format_abstract [⟨"123", "Title", []⟩] = ([⟨"123", "Title", ""⟩], [])
    ∧ (∀ cs : List PubmedCitation, (trec_format_abstract cs).2 = [])
    ∧ ∀ c : PubmedCitation, (trec_format_abstract [c]).1
        = [⟨c.pid, c.title, String.intercalate "\n" c.abstractTexts⟩] :=
  ⟨rfl, fun _ => rfl, fun _ => rfl⟩

/-- C10: for every list and every chunk size `n > 0`, the chunks concatenate
back to the list, every chunk is non-empty of length at most `n`, and every
chunk except possibly the last has length exactly `n`. -/
theorem chunks_by_element_correct {α : Type} (arr : List α) (n : Nat) (hn : 0 < n) :
    (chunks_by_element arr n).flatten = arr
    ∧ (∀ c ∈ chunks_by_element arr n, c ≠ [] ∧ c.length ≤ n)
    ∧ ∀ c ∈ (chunks_by_element arr n).dropLast, c.length = n :=
  ⟨chunks_by_element_flatten hn arr,
   fun _ hc => ⟨chunks_by_element_ne_nil hn hc, chunks_by_element_length_le hc⟩,
   chunks_by_element_dropLast hn arr⟩

/-- Witness for C10 at a concrete list and chunk size. -/
theorem chunks_by_element_correct_witness :
    (chunks_by_element [1, 2, 3, 4, 5] 2).flatten = [1, 2, 3, 4, 5] :=
  (chunks_by_element_correct [1, 2, 3, 4, 5] 2 (by decide)).1
